import Mathlib

/-!
# void-db: the storage engine of `main.go`

A shallow embedding of the key-value engine: the in-memory table `db`, the lock `mu`,
the append-only file `transaction.log`, recovery (`loadFromLog`), the three request
handlers and one tick of the `janitor`.

Conventions of the embedding.

* `interface{}` values are `Option V` for a parameter type `V` of decoded JSON values
  (`none` is Go's `nil`, the zero value of `Item.Value`).
* `int64` values are `Int`; the result of `int64` arithmetic is reduced with `wrap64`.
* `encoding/json` is a parameter (`Codec`): a marshalling function, an unmarshalling
  function and the length in bytes of a line.  The log file is the list of its lines.
* `bufio.Scanner` with its default buffer stops at the first line that does not fit
  in `MaxScanTokenSize = 64 * 1024` bytes; `scanLines` is the sequence of tokens it returns.
* Go strings are byte strings.  Where the bytes of a key matter (`loggedKey`), a
  `String` is read one character per byte.
* `sync.RWMutex` is not reentrant.  One goroutine is run at a time; `mu.Lock()` or
  `mu.RLock()` on a mutex held exclusively never returns, which is the outcome `blocked`.
-/

namespace VoidDB

/-! ## Data model -/

/-- The Go struct `Item`. -/
structure Item (V : Type) where
  Value : Option V
  Expiration : Int
  Priority : Int
deriving DecidableEq, Repr

/-- The Go struct `Transaction`. -/
structure Transaction (V : Type) where
  Action : String
  Key : String
  Item : Item V
deriving DecidableEq, Repr

/-- The zero value of `Item`: what `Transaction{Action: "delete", Key: key}` carries. -/
def Item.zero {V : Type} : Item V := ⟨none, 0, 0⟩

/-- The global `db`, a `map[string]Item`. -/
abbrev Table (V : Type) := String → Option (Item V)

/-- The table `make(map[string]Item)`. -/
def Table.empty {V : Type} : Table V := fun _ => none

/-- The assignment `db[key] = item`. -/
def Table.set {V : Type} (db : Table V) (key : String) (item : Item V) : Table V :=
  fun k => if k = key then some item else db k

/-- The statement `delete(db, key)`. -/
def Table.delete {V : Type} (db : Table V) (key : String) : Table V :=
  fun k => if k = key then none else db k

/-- The part of `encoding/json` the engine uses, on lines of type `L`:
`marshal` is `json.Marshal` (`none` on error), `unmarshal` is `json.Unmarshal` into a
zero `Transaction` (`none` on error), `size` is the length of a line in bytes. -/
structure Codec (V L : Type) where
  marshal : Transaction V → Option L
  unmarshal : L → Option (Transaction V)
  size : L → Nat

/-- The process state: the table `db`, whether `mu` is held exclusively, and the lines
of the file `transaction.log`. -/
structure State (V L : Type) where
  db : Table V
  mu : Bool
  transactionLog : List L

/-- The state at startup on an empty log. -/
def State.init {V L : Type} : State V L := ⟨Table.empty, false, []⟩

/-- What running one goroutine alone gives: it returns with a result, or it waits
forever on `mu`. -/
inductive Outcome (σ ρ : Type) where
  | done (s : σ) (r : ρ)
  | blocked (s : σ)

/-- The HTTP responses of the handlers. -/
inductive Response (V : Type) where
  | badRequest
  | notFound
  | value (v : Option V)
  | ok
  | noContent
deriving DecidableEq, Repr

/-! ## Recovery -/

/-- The constant `bufio.MaxScanTokenSize`. -/
def maxScanTokenSize : Nat := 64 * 1024

/-- The tokens `scanner.Scan()` returns on a file with these lines, for
`bufio.NewScanner(file)`: scanning stops at the first line that does not fit in the
buffer. -/
def scanLines {L : Type} (size : L → Nat) (file : List L) : List L :=
  file.takeWhile (fun line => decide (size line < maxScanTokenSize))

/-- The `switch tx.Action` of `loadFromLog`. -/
def applyTransaction {V : Type} (db : Table V) (tx : Transaction V) : Table V :=
  if tx.Action = "set" then db.set tx.Key tx.Item
  else if tx.Action = "delete" then db.delete tx.Key
  else db

/-- The body of the scanner loop of `loadFromLog` on one token. -/
def loadLine {V L : Type} (c : Codec V L) (db : Table V) (line : L) : Table V :=
  match c.unmarshal line with
  | none => db
  | some tx => applyTransaction db tx

/-- The function `loadFromLog`, on the lines of an existing `transaction.log`, as a
function of the table it writes into. -/
def loadFromLog {V L : Type} (c : Codec V L) (file : List L) (db : Table V) : Table V :=
  (scanLines c.size file).foldl (loadLine c) db

/-! ## Appending to the log -/

/-- The function `writeTransaction`; `writeOk` tells whether `transactionLog.Write`
succeeds (a failed write is taken to append nothing). -/
def writeTransaction {V L : Type} (c : Codec V L) (writeOk : Bool) (tx : Transaction V)
    (s : State V L) : Outcome (State V L) Unit :=
  if s.mu then .blocked s
  else
    let s1 : State V L := { s with mu := true }
    match c.marshal tx with
    | none => .done { s1 with mu := false } ()
    | some data =>
      if writeOk then
        .done { s1 with transactionLog := s1.transactionLog ++ [data], mu := false } ()
      else .done { s1 with mu := false } ()

/-! ## Handlers -/

/-- The function `getHandler` on the query parameter `key`. -/
def getHandler {V L : Type} (key : String) (s : State V L) :
    Outcome (State V L) (Response V) :=
  if key = "" then .done s .badRequest
  else if s.mu then .blocked s
  else
    match s.db key with
    | none => .done s .notFound
    | some item => .done s (.value item.Value)

/-- The decoded body of a `/set` request. -/
structure SetData (V : Type) where
  Key : String
  Value : Option V
  TTL : Int
  Priority : Int

/-- Reduction of an integer to the `int64` it wraps to. -/
def wrap64 (x : Int) : Int := (x + 2 ^ 63) % 2 ^ 64 - 2 ^ 63

/-- The `expiration` that `setHandler` computes at time `now` (Unix nanoseconds):
`time.Duration(ttl) * time.Second` is an `int64` product, `Time.Add` is exact, and
`UnixNano` is the `int64` of the resulting instant. -/
def expiration (now ttl : Int) : Int :=
  if ttl > 0 then wrap64 (now + wrap64 (ttl * 1000000000)) else 0

/-- The function `setHandler`; `body` is the result of decoding the request body
(`none` when `Decode` fails), `now` is `time.Now()`. -/
def setHandler {V L : Type} (c : Codec V L) (writeOk : Bool) (now : Int)
    (body : Option (SetData V)) (s : State V L) : Outcome (State V L) (Response V) :=
  match body with
  | none => .done s .badRequest
  | some data =>
    let item : Item V := ⟨data.Value, expiration now data.TTL, data.Priority⟩
    if s.mu then .blocked s
    else
      let s1 : State V L := { s with db := s.db.set data.Key item }
      match writeTransaction c writeOk ⟨"set", data.Key, item⟩ s1 with
      | .done s2 _ => .done s2 .ok
      | .blocked s2 => .blocked s2

/-- The function `deleteHandler` on the query parameter `key`. -/
def deleteHandler {V L : Type} (c : Codec V L) (writeOk : Bool) (key : String)
    (s : State V L) : Outcome (State V L) (Response V) :=
  if key = "" then .done s .badRequest
  else if s.mu then .blocked s
  else
    let s1 : State V L := { s with db := s.db.delete key }
    match writeTransaction c writeOk ⟨"delete", key, Item.zero⟩ s1 with
    | .done s2 _ => .done s2 .noContent
    | .blocked s2 => .blocked s2

/-! ## The critical sections of the handlers -/

/-- The first part of `setHandler`, up to and including `mu.Unlock()`: the item is
built and `db[data.Key] = item` is done under `mu`; the result is the record that the
handler then passes to `writeTransaction`. -/
def setHandlerMutate {V L : Type} (now : Int) (data : SetData V) (s : State V L) :
    Outcome (State V L) (Transaction V) :=
  let item : Item V := ⟨data.Value, expiration now data.TTL, data.Priority⟩
  if s.mu then .blocked s
  else .done { s with db := s.db.set data.Key item } ⟨"set", data.Key, item⟩

/-- The first part of `deleteHandler` for a key that is not empty, up to and
including `mu.Unlock()`: `delete(db, key)` is done under `mu`; the result is the record
that the handler then passes to `writeTransaction`. -/
def deleteHandlerMutate {V L : Type} (key : String) (s : State V L) :
    Outcome (State V L) (Transaction V) :=
  if s.mu then .blocked s
  else .done { s with db := s.db.delete key } ⟨"delete", key, Item.zero⟩

/-! ## Janitor -/

/-- The condition `item.Expiration > 0 && time.Now().UnixNano() > item.Expiration`. -/
def expired {V : Type} (now : Int) (item : Item V) : Bool :=
  decide (item.Expiration > 0) && decide (now > item.Expiration)

/-- The loop `for key, item := range db` of `janitor`, visiting the keys in the order
`order` chosen by the runtime; a key no longer in the table is not produced.  The
clock reads of one sweep are taken at the one instant `now`. -/
def janitorLoop {V L : Type} (c : Codec V L) (writeOk : Bool) (now : Int) :
    List String → State V L → Outcome (State V L) Unit
  | [], s => .done s ()
  | key :: rest, s =>
    match s.db key with
    | none => janitorLoop c writeOk now rest s
    | some item =>
      if expired now item then
        let s1 : State V L := { s with db := s.db.delete key }
        match writeTransaction c writeOk ⟨"delete", key, Item.zero⟩ s1 with
        | .done s2 _ => janitorLoop c writeOk now rest s2
        | .blocked s2 => .blocked s2
      else janitorLoop c writeOk now rest s

/-- One iteration of `for range time.Tick(1 * time.Second)` in `janitor`. -/
def janitorTick {V L : Type} (c : Codec V L) (writeOk : Bool) (now : Int)
    (order : List String) (s : State V L) : Outcome (State V L) Unit :=
  if s.mu then .blocked s
  else
    match janitorLoop c writeOk now order { s with mu := true } with
    | .done s1 _ => .done { s1 with mu := false } ()
    | .blocked s1 => .blocked s1

/-- The iteration order `order` ranges over the table `db`: every key of the table
once, and nothing else. -/
def RangesOver {V : Type} (order : List String) (db : Table V) : Prop :=
  order.Nodup ∧ ∀ k, k ∈ order ↔ db k ≠ none

/-! ## Specification-side definitions -/

/-- The records `loadFromLog` applies: the tokens of the scanner that unmarshal. -/
def records {V L : Type} (c : Codec V L) (file : List L) : List (Transaction V) :=
  (scanLines c.size file).filterMap c.unmarshal

/-- The last record of a sequence that is a set or a delete of the key `k`. -/
def lastRecord {V : Type} (txs : List (Transaction V)) (k : String) :
    Option (Transaction V) :=
  txs.reverse.find?
    (fun tx => decide (tx.Key = k) && (decide (tx.Action = "set") || decide (tx.Action = "delete")))

/-- Last record wins: the entry of `k` after a sequence of records, in the words of
the specification. -/
def lastWins {V : Type} (txs : List (Transaction V)) (k : String) : Option (Item V) :=
  match lastRecord txs k with
  | none => none
  | some tx => if tx.Action = "set" then some tx.Item else none

/-- Last record wins over a starting table `db`: a key that no set or delete record
names keeps its entry of `db`. -/
def lastWinsOver {V : Type} (db : Table V) (txs : List (Transaction V)) (k : String) :
    Option (Item V) :=
  match lastRecord txs k with
  | none => db k
  | some tx => if tx.Action = "set" then some tx.Item else none

/-- The lines of the log after `writeTransaction` has run on a free lock. -/
def logAfter {V L : Type} (c : Codec V L) (writeOk : Bool) (tx : Transaction V)
    (log : List L) : List L :=
  match c.marshal tx with
  | none => log
  | some data => if writeOk then log ++ [data] else log

/-- The first key of the iteration order whose entry is expired at `now`. -/
def firstExpired {V : Type} (now : Int) (db : Table V) (order : List String) : Option String :=
  order.find? (fun key =>
    match db key with
    | none => false
    | some item => expired now item)

/-- The fold over the parseable lines only, in the words of the specification: every
line of the file that unmarshals is applied, in order. -/
def replayParseable {V L : Type} (c : Codec V L) (file : List L) (db : Table V) : Table V :=
  (file.filterMap c.unmarshal).foldl applyTransaction db

/-- The table is the replay of the log into an empty table. -/
def Consistent {V L : Type} (c : Codec V L) (s : State V L) : Prop :=
  s.db = loadFromLog c s.transactionLog Table.empty

/-- No key of the table is the empty string. -/
def KeysNonEmpty {V : Type} (db : Table V) : Prop := db "" = none

/-- A concrete codec on lines given by their length and the record they decode to;
a marshalled record is as long as its key plus a fixed frame. -/
def frameCodec (V : Type) : Codec V (Nat × Option (Transaction V)) where
  marshal := fun tx => some (tx.Key.length + 64, some tx)
  unmarshal := fun line => line.2
  size := fun line => line.1

/-- A concrete codec for values that stand for a payload of that many bytes: a
marshalled record is as long as its key, its value and a fixed frame. -/
def payloadCodec : Codec Nat (Nat × Option (Transaction Nat)) where
  marshal := fun tx => some (tx.Key.length + tx.Item.Value.getD 0 + 64, some tx)
  unmarshal := fun line => line.2
  size := fun line => line.1

/-! ## Keys in the log -/

/-- The length in bytes of the UTF-8 sequence at the head of a byte string, by the
ranges `utf8.DecodeRuneInString` accepts; `0` when the first byte does not start a
valid sequence. -/
def runeSize : List Nat → Nat
  | [] => 0
  | b0 :: rest =>
    if b0 < 0x80 then 1
    else if 0xC2 ≤ b0 ∧ b0 ≤ 0xDF then
      match rest with
      | b1 :: _ => if 0x80 ≤ b1 ∧ b1 ≤ 0xBF then 2 else 0
      | _ => 0
    else if 0xE0 ≤ b0 ∧ b0 ≤ 0xEF then
      match rest with
      | b1 :: b2 :: _ =>
        if (if b0 = 0xE0 then 0xA0 else 0x80) ≤ b1 ∧ b1 ≤ (if b0 = 0xED then 0x9F else 0xBF) ∧
            0x80 ≤ b2 ∧ b2 ≤ 0xBF then 3
        else 0
      | _ => 0
    else if 0xF0 ≤ b0 ∧ b0 ≤ 0xF4 then
      match rest with
      | b1 :: b2 :: b3 :: _ =>
        if (if b0 = 0xF0 then 0x90 else 0x80) ≤ b1 ∧ b1 ≤ (if b0 = 0xF4 then 0x8F else 0xBF) ∧
            0x80 ≤ b2 ∧ b2 ≤ 0xBF ∧ 0x80 ≤ b3 ∧ b3 ≤ 0xBF then 4
        else 0
      | _ => 0
    else 0

/-- The coercion to valid UTF-8 that `json.Marshal` applies to a string, on its bytes:
a byte at which `utf8.DecodeRuneInString` fails is written as U+FFFD, which decodes
to the bytes `EF BF BD`; the bytes of a valid sequence are kept.  The first argument
counts the bytes still to copy of the sequence being read. -/
def coerceBytes : Nat → List Nat → List Nat
  | _, [] => []
  | n + 1, b :: rest => b :: coerceBytes n rest
  | 0, b :: rest =>
    if runeSize (b :: rest) = 0 then 0xEF :: 0xBF :: 0xBD :: coerceBytes 0 rest
    else b :: coerceBytes (runeSize (b :: rest) - 1) rest

/-- The key that `json.Unmarshal` reads back from the record `json.Marshal` wrote for
`key`.  A key is read as a Go string, one character per byte. -/
def loggedKey (key : String) : String :=
  String.mk ((coerceBytes 0 (key.data.map Char.toNat)).map Char.ofNat)

/-- A concrete codec that treats the key of a record as `encoding/json` does: the
line of a record decodes to the record with its key coerced to valid UTF-8. -/
def keyCodec : Codec Nat (Nat × Option (Transaction Nat)) where
  marshal := fun tx => some (tx.Key.length + 64, some ⟨tx.Action, loggedKey tx.Key, tx.Item⟩)
  unmarshal := fun line => line.2
  size := fun line => line.1

/-! ## Example data -/

/-- The log `set(a,1), set(a,2), delete(b), set(c,3)` as lines of `frameCodec`. -/
def crashLog : List (Nat × Option (Transaction Nat)) :=
  [(65, some ⟨"set", "a", ⟨some 1, 0, 0⟩⟩), (65, some ⟨"set", "a", ⟨some 2, 0, 0⟩⟩),
   (65, some ⟨"delete", "b", Item.zero⟩), (65, some ⟨"set", "c", ⟨some 3, 0, 0⟩⟩)]

/-- The records of `crashLog`. -/
def crashRecords : List (Transaction Nat) :=
  [⟨"set", "a", ⟨some 1, 0, 0⟩⟩, ⟨"set", "a", ⟨some 2, 0, 0⟩⟩,
   ⟨"delete", "b", Item.zero⟩, ⟨"set", "c", ⟨some 3, 0, 0⟩⟩]

/-- The log `crashLog` with a corrupt line in the middle. -/
def crashLogCorrupt : List (Nat × Option (Transaction Nat)) :=
  [(65, some ⟨"set", "a", ⟨some 1, 0, 0⟩⟩), (65, some ⟨"set", "a", ⟨some 2, 0, 0⟩⟩),
   (17, none), (65, some ⟨"delete", "b", Item.zero⟩), (65, some ⟨"set", "c", ⟨some 3, 0, 0⟩⟩)]

/-- A table with two entries that expired at instant 1. -/
def twoExpired : Table Nat :=
  (Table.empty.set "a" ⟨some 1, 1, 0⟩).set "b" ⟨some 2, 1, 0⟩

/-! ## Recovery as a fold -/

theorem scanLines_of_all_lt {L : Type} (size : L → Nat) (file : List L)
    (h : ∀ line ∈ file, size line < maxScanTokenSize) : scanLines size file = file := by
  unfold scanLines
  rw [List.takeWhile_eq_self_iff]
  intro line hl
  simpa using h line hl

theorem foldl_loadLine {V L : Type} (c : Codec V L) (ls : List L) (db : Table V) :
    ls.foldl (loadLine c) db = (ls.filterMap c.unmarshal).foldl applyTransaction db := by
  induction ls generalizing db with
  | nil => rfl
  | cons l ls ih =>
    cases hu : c.unmarshal l with
    | none => simp [List.filterMap_cons, hu, loadLine, ih]
    | some tx => simp [List.filterMap_cons, hu, loadLine, ih]

theorem loadFromLog_eq_foldl {V L : Type} (c : Codec V L) (file : List L) (db : Table V) :
    loadFromLog c file db = (records c file).foldl applyTransaction db :=
  foldl_loadLine c (scanLines c.size file) db

theorem lastWins_nil {V : Type} (k : String) : lastWins ([] : List (Transaction V)) k = none := rfl

theorem lastWins_append_singleton {V : Type} (txs : List (Transaction V)) (tx : Transaction V)
    (k : String) :
    lastWins (txs ++ [tx]) k = applyTransaction (lastWins txs) tx k := by
  unfold lastWins lastRecord applyTransaction Table.set Table.delete
  rw [List.reverse_append, List.reverse_singleton, List.singleton_append, List.find?_cons]
  by_cases hs : tx.Action = "set"
  · by_cases hk : tx.Key = k
    · simp [hs, hk]
    · have hk2 : ¬ k = tx.Key := fun e => hk e.symm
      simp [hs, hk, hk2]
  · by_cases hd : tx.Action = "delete"
    · by_cases hk : tx.Key = k
      · simp [hd, hk]
      · have hk2 : ¬ k = tx.Key := fun e => hk e.symm
        simp [hd, hk, hk2]
    · simp [hs, hd]

theorem foldl_applyTransaction_empty {V : Type} (txs : List (Transaction V)) (k : String) :
    txs.foldl applyTransaction Table.empty k = lastWins txs k := by
  induction txs using List.reverseRecOn generalizing k with
  | nil => rfl
  | append_singleton txs tx ih =>
    rw [List.foldl_append, lastWins_append_singleton]
    have : txs.foldl applyTransaction Table.empty = lastWins txs := funext ih
    simp [this]

/-- C2: recovery is a left fold with last-record-wins. For every sequence `txs` of
records read from the log, `loadFromLog` into the empty table maps a key `k` to the
Item of the last set-or-delete record for `k` when that record is a set, and has no
entry for `k` otherwise; a set record overwrites, a delete record removes, and a
record with any other action leaves the table unchanged. -/
theorem loadFromLog_last_record_wins {V L : Type} (c : Codec V L) (file : List L)
    (txs : List (Transaction V)) (h : records c file = txs) :
    (∀ k, loadFromLog c file Table.empty k = lastWins txs k) ∧
    (∀ (db : Table V) tx, tx.Action = "set" →
      applyTransaction db tx = db.set tx.Key tx.Item) ∧
    (∀ (db : Table V) tx, tx.Action = "delete" →
      applyTransaction db tx = db.delete tx.Key) ∧
    (∀ (db : Table V) tx, tx.Action ≠ "set" → tx.Action ≠ "delete" →
      applyTransaction db tx = db) := by
  refine ⟨fun k => ?_, fun db tx hs => ?_, fun db tx hd => ?_, fun db tx hs hd => ?_⟩
  · rw [loadFromLog_eq_foldl, h, foldl_applyTransaction_empty]
  · simp [applyTransaction, hs]
  · have : tx.Action ≠ "set" := by rw [hd]; decide
    simp [applyTransaction, hd]
  · simp [applyTransaction, hs, hd]

/-- The crash-recovery scenario: replaying `set(a,1), set(a,2), delete(b), set(c,3)`
into the empty table yields exactly `{a:2, c:3}`, with `b` absent. -/
theorem loadFromLog_last_record_wins_witness :
    records (frameCodec Nat) crashLog = crashRecords ∧
    loadFromLog (frameCodec Nat) crashLog Table.empty =
      (fun k => if k = "a" then some ⟨some 2, 0, 0⟩
        else if k = "c" then some ⟨some 3, 0, 0⟩ else none) ∧
    loadFromLog (frameCodec Nat) crashLog Table.empty "b" = none := by
  have hrec : records (frameCodec Nat) crashLog = crashRecords := by
    simp [records, scanLines, frameCodec, crashLog, crashRecords, maxScanTokenSize]
  have h := (loadFromLog_last_record_wins (frameCodec Nat) crashLog crashRecords hrec).1
  refine ⟨hrec, funext fun k => ?_, ?_⟩
  · rw [h k]
    by_cases ha : k = "a"
    · subst ha; simp [lastWins, lastRecord, crashRecords]
    · by_cases hc : k = "c"
      · subst hc; simp [lastWins, lastRecord, crashRecords]
      · have ha2 : ¬ "a" = k := fun e => ha e.symm
        have hc2 : ¬ "c" = k := fun e => hc e.symm
        by_cases hb : k = "b"
        · subst hb; simp [lastWins, lastRecord, crashRecords]
        · have hb2 : ¬ "b" = k := fun e => hb e.symm
          simp [lastWins, lastRecord, crashRecords, ha, hc, ha2, hc2, hb2]
  · rw [h "b"]; simp [lastWins, lastRecord, crashRecords]

/-! ## The handlers run alone on a free lock -/

theorem writeTransaction_free {V L : Type} (c : Codec V L) (w : Bool) (tx : Transaction V)
    (s : State V L) (hmu : s.mu = false) :
    writeTransaction c w tx s = .done ⟨s.db, false, logAfter c w tx s.transactionLog⟩ () := by
  unfold writeTransaction logAfter
  cases hm : c.marshal tx with
  | none => simp [hmu]
  | some data => cases w <;> simp [hmu]

theorem writeTransaction_held {V L : Type} (c : Codec V L) (w : Bool) (tx : Transaction V)
    (s : State V L) (hmu : s.mu = true) : writeTransaction c w tx s = .blocked s := by
  simp [writeTransaction, hmu]

theorem setHandler_free {V L : Type} (c : Codec V L) (w : Bool) (now : Int) (data : SetData V)
    (s : State V L) (hmu : s.mu = false) :
    setHandler c w now (some data) s =
      .done ⟨s.db.set data.Key ⟨data.Value, expiration now data.TTL, data.Priority⟩, false,
        logAfter c w ⟨"set", data.Key, ⟨data.Value, expiration now data.TTL, data.Priority⟩⟩
          s.transactionLog⟩ .ok := by
  simp only [setHandler, hmu]
  rw [writeTransaction_free c w _ _ rfl]
  simp

theorem deleteHandler_free {V L : Type} (c : Codec V L) (w : Bool) (key : String)
    (s : State V L) (hmu : s.mu = false) (hk : key ≠ "") :
    deleteHandler c w key s =
      .done ⟨s.db.delete key, false, logAfter c w ⟨"delete", key, Item.zero⟩ s.transactionLog⟩
        .noContent := by
  simp only [deleteHandler, hmu, hk]
  rw [writeTransaction_free c w _ _ rfl]
  simp

theorem getHandler_free {V L : Type} (key : String) (s : State V L) (hmu : s.mu = false)
    (hk : key ≠ "") :
    getHandler key s =
      .done s (match s.db key with
        | none => .notFound
        | some item => .value item.Value) := by
  unfold getHandler
  cases hd : s.db key <;> simp [hmu, hk]

/-- C3: Set then Get. On every state with the lock free and for every non-empty key
`k`, value `v` and priority `p`, a Get of `k` after `Set(k, v, ttl=0, p)` returns `v`,
whatever `k` held before; and after two Sets of `k` the Get returns the value of the
second one. -/
theorem set_then_get {V L : Type} (c : Codec V L) (s : State V L) (k : String)
    (hmu : s.mu = false) (hk : k ≠ "") :
    (∀ (w : Bool) (now : Int) (v : Option V) (p : Int), ∃ s1,
      setHandler c w now (some ⟨k, v, 0, p⟩) s = .done s1 .ok ∧
      getHandler k s1 = .done s1 (.value v)) ∧
    (∀ (w1 w2 : Bool) (now1 now2 : Int) (v1 v2 : Option V) (ttl1 ttl2 p1 p2 : Int),
      ∃ s1 s2,
        setHandler c w1 now1 (some ⟨k, v1, ttl1, p1⟩) s = .done s1 .ok ∧
        setHandler c w2 now2 (some ⟨k, v2, ttl2, p2⟩) s1 = .done s2 .ok ∧
        getHandler k s2 = .done s2 (.value v2)) := by
  constructor
  · intro w now v p
    refine ⟨_, setHandler_free c w now ⟨k, v, 0, p⟩ s hmu, ?_⟩
    rw [getHandler_free k _ rfl hk]
    simp [Table.set]
  · intro w1 w2 now1 now2 v1 v2 ttl1 ttl2 p1 p2
    refine ⟨_, _, setHandler_free c w1 now1 ⟨k, v1, ttl1, p1⟩ s hmu,
      setHandler_free c w2 now2 ⟨k, v2, ttl2, p2⟩ _ rfl, ?_⟩
    rw [getHandler_free k _ rfl hk]
    simp [Table.set]

/-- Set then Get on the startup state: two Sets of `a`, then a Get of `a`. -/
theorem set_then_get_witness :
    (State.init : State Nat (Nat × Option (Transaction Nat))).mu = false ∧ "a" ≠ "" ∧
    ∃ s1 s2,
      setHandler (frameCodec Nat) true 5 (some ⟨"a", some 1, 0, 0⟩) State.init = .done s1 .ok ∧
      setHandler (frameCodec Nat) true 6 (some ⟨"a", some 2, 0, 0⟩) s1 = .done s2 .ok ∧
      getHandler "a" s2 = .done s2 (.value (some 2)) :=
  ⟨rfl, by decide,
    (set_then_get (frameCodec Nat) State.init "a" rfl (by decide)).2
      true true 5 6 (some 1) (some 2) 0 0 0 0⟩

/-- C4: Delete then Get. On every state with the lock free and for every non-empty key
`k`, a Get of `k` after `Delete(k)` returns NotFound, whether or not `k` was present. -/
theorem delete_then_get {V L : Type} (c : Codec V L) (w : Bool) (s : State V L) (k : String)
    (hmu : s.mu = false) (hk : k ≠ "") :
    ∃ s1, deleteHandler c w k s = .done s1 .noContent ∧ getHandler k s1 = .done s1 .notFound := by
  refine ⟨_, deleteHandler_free c w k s hmu hk, ?_⟩
  rw [getHandler_free k _ rfl hk]
  simp [Table.delete]

/-- Delete then Get on the startup state, where the key is absent. -/
theorem delete_then_get_witness :
    (State.init : State Nat (Nat × Option (Transaction Nat))).mu = false ∧ "a" ≠ "" ∧
    ∃ s1, deleteHandler (frameCodec Nat) true "a" State.init = .done s1 .noContent ∧
      getHandler "a" s1 = .done s1 .notFound :=
  ⟨rfl, by decide, delete_then_get (frameCodec Nat) true State.init "a" rfl (by decide)⟩

/-- C10: Get does not consult expiration. On every state with the lock free and for
every non-empty key `k`, Get returns the stored value of `k` when `k` is present, also
when the entry is expired at the current time `now`, and returns NotFound if and only
if `k` is absent. -/
theorem get_ignores_expiration {V L : Type} (s : State V L) (k : String)
    (hmu : s.mu = false) (hk : k ≠ "") :
    (∀ item, s.db k = some item → getHandler k s = .done s (.value item.Value)) ∧
    (∀ (now : Int) item, s.db k = some item → expired now item = true →
      getHandler k s = .done s (.value item.Value)) ∧
    (getHandler k s = .done s .notFound ↔ s.db k = none) := by
  have h := getHandler_free k s hmu hk
  refine ⟨fun item hi => ?_, fun _ item hi _ => ?_, ?_⟩
  · rw [h, hi]
  · rw [h, hi]
  · rw [h]
    cases hd : s.db k <;> simp

/-- Get of an entry that expired long ago and was not swept. -/
theorem get_ignores_expiration_witness :
    (⟨Table.empty.set "a" ⟨some 7, 1, 0⟩, false, []⟩ : State Nat Nat).mu = false ∧ "a" ≠ "" ∧
    expired 1000 (⟨some 7, 1, 0⟩ : Item Nat) = true ∧
    getHandler "a" (⟨Table.empty.set "a" ⟨some 7, 1, 0⟩, false, []⟩ : State Nat Nat) =
      .done ⟨Table.empty.set "a" ⟨some 7, 1, 0⟩, false, []⟩ (.value (some 7)) :=
  ⟨rfl, by decide, by decide,
    (get_ignores_expiration (⟨Table.empty.set "a" ⟨some 7, 1, 0⟩, false, []⟩ : State Nat Nat) "a"
      rfl (by decide)).2.1 1000 ⟨some 7, 1, 0⟩ (by simp [Table.set]) (by decide)⟩

/-! ## Expiration arithmetic -/

theorem wrap64_of_int64 (x : Int) (hlo : -2 ^ 63 ≤ x) (hhi : x < 2 ^ 63) : wrap64 x = x := by
  unfold wrap64
  omega

/-- Within the `int64` range a positive TTL gives `now + ttl * 10^9`, which is after
`now` and positive; a TTL that is not positive gives the sentinel `0`. -/
theorem expiration_in_range (now ttl : Int) :
    (0 < ttl → 0 ≤ now → now + ttl * 1000000000 < 2 ^ 63 →
      expiration now ttl = now + ttl * 1000000000 ∧ now < expiration now ttl ∧
        0 < expiration now ttl) ∧
    (ttl ≤ 0 → expiration now ttl = 0) := by
  constructor
  · intro ht hn hr
    have h1 : wrap64 (ttl * 1000000000) = ttl * 1000000000 :=
      wrap64_of_int64 _ (by omega) (by omega)
    have h2 : expiration now ttl = now + ttl * 1000000000 := by
      unfold expiration
      rw [if_pos ht, h1, wrap64_of_int64 _ (by omega) hr]
    rw [h2]
    omega
  · intro ht
    unfold expiration
    rw [if_neg (by omega)]

/-- C7: the expiration computed by Set overflows. At `now = 1.7 * 10^18` ns a Set with
the positive TTL `9223372037` stores the negative Expiration `-7523372036709551616`:
it is not `now + ttl * 10^9`, it is not after `now`, and being at most `0` it is never
swept by the Janitor. -/
theorem setHandler_expiration_overflow {V L : Type} (c : Codec V L) (w : Bool) (v : Option V)
    (p : Int) :
    ∃ s1, setHandler c w 1700000000000000000 (some ⟨"k", v, 9223372037, p⟩) State.init
        = .done s1 .ok ∧
      s1.db "k" = some ⟨v, -7523372036709551616, p⟩ ∧
      (-7523372036709551616 : Int) ≠ 1700000000000000000 + 9223372037 * 1000000000 ∧
      ¬ (1700000000000000000 < (-7523372036709551616 : Int)) ∧
      ∀ now, expired now (⟨v, -7523372036709551616, p⟩ : Item V) = false := by
  refine ⟨_, setHandler_free c w _ ⟨"k", v, 9223372037, p⟩ State.init rfl, ?_, by decide,
    by decide, fun now => ?_⟩
  · have he : expiration 1700000000000000000 9223372037 = -7523372036709551616 := by
      decide
    simp [Table.set, he]
  · simp [expired]

/-- C9: a Set with the empty key is stored. On the startup state, whose table has no
empty key, `setHandler` with a body whose key is empty answers 200 and leaves an entry
under the empty key in the table. -/
theorem setHandler_stores_empty_key {V L : Type} (c : Codec V L) (w : Bool) (now : Int)
    (v : Option V) (ttl p : Int) :
    KeysNonEmpty (State.init : State V L).db ∧
    ∃ s1, setHandler c w now (some ⟨"", v, ttl, p⟩) State.init = .done s1 .ok ∧
      s1.db "" = some ⟨v, expiration now ttl, p⟩ ∧ ¬ KeysNonEmpty s1.db := by
  refine ⟨rfl, _, setHandler_free c w now ⟨"", v, ttl, p⟩ State.init rfl, ?_, ?_⟩
  · simp [Table.set]
  · simp [KeysNonEmpty, Table.set]

/-! ## The janitor -/

theorem janitorLoop_held {V L : Type} (c : Codec V L) (w : Bool) (now : Int)
    (order : List String) (s : State V L) (hmu : s.mu = true) :
    janitorLoop c w now order s =
      match firstExpired now s.db order with
      | none => .done s ()
      | some k => .blocked ⟨s.db.delete k, true, s.transactionLog⟩ := by
  induction order with
  | nil => rfl
  | cons key rest ih =>
    unfold janitorLoop firstExpired
    rw [List.find?_cons]
    cases hd : s.db key with
    | none => simpa [firstExpired] using ih
    | some item =>
      cases he : expired now item with
      | false => simpa [firstExpired, he] using ih
      | true =>
        have hw := writeTransaction_held c w ⟨"delete", key, Item.zero⟩
          (⟨s.db.delete key, true, s.transactionLog⟩ : State V L) rfl
        simp [he, hw, hmu]

theorem janitorTick_free {V L : Type} (c : Codec V L) (w : Bool) (now : Int)
    (order : List String) (s : State V L) (hmu : s.mu = false) :
    janitorTick c w now order s =
      match firstExpired now s.db order with
      | none => .done s ()
      | some k => .blocked ⟨s.db.delete k, true, s.transactionLog⟩ := by
  unfold janitorTick
  rw [if_neg (by simp [hmu]), janitorLoop_held c w now order _ rfl]
  cases hf : firstExpired now s.db order with
  | none =>
    cases s
    simp at hmu
    simp [hmu]
  | some k => simp

theorem firstExpired_spec {V : Type} (now : Int) (db : Table V) (order : List String)
    (k : String) (item : Item V) (hk : k ∈ order) (hi : db k = some item)
    (he : expired now item = true) :
    ∃ k1 item1, firstExpired now db order = some k1 ∧ k1 ∈ order ∧ db k1 = some item1 ∧
      expired now item1 = true := by
  unfold firstExpired
  cases hf : order.find? (fun key =>
      match db key with
      | none => false
      | some item => expired now item) with
  | none =>
    have := List.find?_eq_none.mp hf k hk
    simp [hi, he] at this
  | some k1 =>
    have hp := List.find?_some hf
    have hm := List.mem_of_find?_eq_some hf
    cases hd : db k1 with
    | none => simp [hd] at hp
    | some item1 =>
      simp [hd] at hp
      exact ⟨k1, item1, rfl, hm, hd, hp⟩

/-- Whatever a tick on a free lock does, it appends nothing to the log and keeps every
entry that is not expired. -/
theorem janitorTick_keeps_unexpired {V L : Type} (c : Codec V L) (w : Bool) (now : Int)
    (order : List String) (s : State V L) (hmu : s.mu = false) :
    ∃ s1, (janitorTick c w now order s = .done s1 () ∨ janitorTick c w now order s = .blocked s1) ∧
      s1.transactionLog = s.transactionLog ∧
      ∀ k item, s.db k = some item → expired now item = false → s1.db k = some item := by
  rw [janitorTick_free c w now order s hmu]
  cases hf : firstExpired now s.db order with
  | none => exact ⟨s, Or.inl rfl, rfl, fun _ _ h _ => h⟩
  | some k1 =>
    refine ⟨_, Or.inr rfl, rfl, fun k item hi he => ?_⟩
    have hp := List.find?_some hf
    have hne : k ≠ k1 := by
      intro e
      subst e
      simp [hi, he] at hp
    simp [Table.delete, hne, hi]

/-- A tick that finds no expired entry returns with the state unchanged. -/
theorem janitorTick_nothing_expired {V L : Type} (c : Codec V L) (w : Bool) (now : Int)
    (order : List String) (s : State V L) (hmu : s.mu = false)
    (h : ∀ k ∈ order, ∀ item, s.db k = some item → expired now item = false) :
    janitorTick c w now order s = .done s () := by
  rw [janitorTick_free c w now order s hmu]
  have hf : firstExpired now s.db order = none := by
    unfold firstExpired
    rw [List.find?_eq_none]
    intro k hk
    cases hd : s.db k with
    | none => simp
    | some item => simp [h k hk item hd]
  rw [hf]

/-- C5: the sweep on a table with an expired entry. When the iteration order visits a
key whose entry is expired at `now`, the tick removes one expired entry only, appends
no delete record to the log, and does not return: it waits on `mu` with every other
entry, expired or not, still in the table. -/
theorem janitorTick_removes_one_logs_none {V L : Type} (c : Codec V L) (w : Bool) (now : Int)
    (order : List String) (s : State V L) (k : String) (item : Item V) (hmu : s.mu = false)
    (hr : RangesOver order s.db) (hi : s.db k = some item) (he : expired now item = true) :
    ∃ k1 item1, k1 ∈ order ∧ s.db k1 = some item1 ∧ expired now item1 = true ∧
      janitorTick c w now order s = .blocked ⟨s.db.delete k1, true, s.transactionLog⟩ := by
  have hk : k ∈ order := (hr.2 k).mpr (by simp [hi])
  obtain ⟨k1, item1, hf, hm, hd, hx⟩ := firstExpired_spec now s.db order k item hk hi he
  refine ⟨k1, item1, hm, hd, hx, ?_⟩
  rw [janitorTick_free c w now order s hmu, hf]

/-- The sweep at instant 2 of a table with two expired entries and an empty log. -/
theorem janitorTick_removes_one_logs_none_witness :
    (⟨twoExpired, false, []⟩ : State Nat (Nat × Option (Transaction Nat))).mu = false ∧
    RangesOver ["a", "b"] twoExpired ∧ twoExpired "a" = some ⟨some 1, 1, 0⟩ ∧
    expired 2 (⟨some 1, 1, 0⟩ : Item Nat) = true ∧
    ∃ k1 item1, k1 ∈ ["a", "b"] ∧ twoExpired k1 = some item1 ∧ expired 2 item1 = true ∧
      janitorTick (frameCodec Nat) true 2 ["a", "b"] ⟨twoExpired, false, []⟩ =
        .blocked ⟨twoExpired.delete k1, true, []⟩ :=
  have hr : RangesOver ["a", "b"] twoExpired := by
    refine ⟨by decide, fun k => ?_⟩
    by_cases ha : k = "a"
    · subst ha; simp [twoExpired, Table.set]
    · by_cases hb : k = "b"
      · subst hb; simp [twoExpired, Table.set]
      · simp [twoExpired, Table.set, Table.empty, ha, hb]
  ⟨rfl, hr, by decide, by decide,
    janitorTick_removes_one_logs_none (frameCodec Nat) true 2 ["a", "b"] ⟨twoExpired, false, []⟩
      "a" ⟨some 1, 1, 0⟩ rfl hr (by decide) (by decide)⟩

/-- C6: a tick that finds an expired entry deadlocks. When the table holds an expired
entry that the iteration visits and `mu` is free when the tick starts, the tick does
not return: it is left waiting on `mu`, which it still holds, the log has no new
record, and every following Get waits forever too. -/
theorem janitorTick_deadlocks {V L : Type} (c : Codec V L) (w : Bool) (now : Int)
    (order : List String) (s : State V L) (k : String) (item : Item V) (hmu : s.mu = false)
    (hr : RangesOver order s.db) (hi : s.db k = some item) (he : expired now item = true) :
    ∃ s1, janitorTick c w now order s = .blocked s1 ∧ s1.mu = true ∧
      s1.transactionLog = s.transactionLog ∧
      ∀ key, key ≠ "" → getHandler key s1 = .blocked s1 := by
  have hk : k ∈ order := (hr.2 k).mpr (by simp [hi])
  obtain ⟨k1, item1, hf, _, _, _⟩ := firstExpired_spec now s.db order k item hk hi he
  refine ⟨⟨s.db.delete k1, true, s.transactionLog⟩, ?_, rfl, rfl, fun key hkey => ?_⟩
  · rw [janitorTick_free c w now order s hmu, hf]
  · simp [getHandler, hkey]

/-- The tick at instant 2 on a table whose only entry expired at instant 1. -/
theorem janitorTick_deadlocks_witness :
    (⟨Table.empty.set "a" ⟨some 1, 1, 0⟩, false, [(65, some ⟨"set", "a", ⟨some 1, 1, 0⟩⟩)]⟩ :
      State Nat (Nat × Option (Transaction Nat))).mu = false ∧
    RangesOver ["a"] (Table.empty.set "a" ⟨some 1, 1, 0⟩ : Table Nat) ∧
    expired 2 (⟨some 1, 1, 0⟩ : Item Nat) = true ∧
    ∃ s1, janitorTick (frameCodec Nat) true 2 ["a"]
        ⟨Table.empty.set "a" ⟨some 1, 1, 0⟩, false, [(65, some ⟨"set", "a", ⟨some 1, 1, 0⟩⟩)]⟩
          = .blocked s1 ∧
      s1.mu = true ∧ s1.transactionLog = [(65, some ⟨"set", "a", ⟨some 1, 1, 0⟩⟩)] ∧
      ∀ key, key ≠ "" → getHandler key s1 = .blocked s1 :=
  have hr : RangesOver ["a"] (Table.empty.set "a" ⟨some 1, 1, 0⟩ : Table Nat) := by
    refine ⟨by decide, fun k => ?_⟩
    by_cases ha : k = "a"
    · subst ha; simp [Table.set]
    · simp [Table.set, Table.empty, ha]
  ⟨rfl, hr, by decide,
    janitorTick_deadlocks (frameCodec Nat) true 2 ["a"]
      ⟨Table.empty.set "a" ⟨some 1, 1, 0⟩, false, [(65, some ⟨"set", "a", ⟨some 1, 1, 0⟩⟩)]⟩
      "a" ⟨some 1, 1, 0⟩ rfl hr (by decide) (by decide)⟩

/-! ## Log and table -/

theorem loadFromLog_singleton {V L : Type} (c : Codec V L) (line : L) (tx : Transaction V)
    (db : Table V) (hu : c.unmarshal line = some tx) (hs : c.size line < maxScanTokenSize) :
    loadFromLog c [line] db = applyTransaction db tx := by
  simp [loadFromLog, scanLines, List.takeWhile, hs, loadLine, hu]

/-- C1: the Janitor breaks the log/table invariant. From the startup state, a Set of
`k` with a TTL of one second whose record is written to the log gives a state whose
table is the replay of its log; a tick more than a second later removes `k` from the
table and stops on `mu` before any delete record is written, so that the log still
replays to a table that holds `k` and the table is no longer the replay of the log. -/
theorem janitorTick_breaks_consistency {V L : Type} (c : Codec V L) (k : String)
    (v : Option V) (p now0 now : Int) (line : L)
    (hm : c.marshal ⟨"set", k, ⟨v, expiration now0 1, p⟩⟩ = some line)
    (hu : c.unmarshal line = some ⟨"set", k, ⟨v, expiration now0 1, p⟩⟩)
    (hs : c.size line < maxScanTokenSize)
    (h0 : 0 ≤ now0) (hr : now0 + 1000000000 < 2 ^ 63) (hnow : now0 + 1000000000 < now) :
    ∃ s0 s1, setHandler c true now0 (some ⟨k, v, 1, p⟩) State.init = .done s0 .ok ∧
      Consistent c s0 ∧
      janitorTick c true now [k] s0 = .blocked s1 ∧
      s1.transactionLog = [line] ∧ s1.db k = none ∧
      loadFromLog c s1.transactionLog Table.empty k = some ⟨v, expiration now0 1, p⟩ ∧
      ¬ Consistent c s1 := by
  have hexp : expiration now0 1 = now0 + 1 * 1000000000 :=
    ((expiration_in_range now0 1).1 (by decide) h0 (by omega)).1
  have hlog : logAfter c true ⟨"set", k, ⟨v, expiration now0 1, p⟩⟩ ([] : List L) = [line] := by
    simp [logAfter, hm]
  have hload : loadFromLog c [line] Table.empty =
      (Table.empty.set k ⟨v, expiration now0 1, p⟩ : Table V) := by
    rw [loadFromLog_singleton c line _ _ hu hs]
    simp [applyTransaction]
  have hex : expired now (⟨v, expiration now0 1, p⟩ : Item V) = true := by
    simp only [expired, hexp, Bool.and_eq_true, decide_eq_true_eq]
    constructor <;> omega
  have hfirst : firstExpired now (Table.empty.set k ⟨v, expiration now0 1, p⟩ : Table V) [k]
      = some k := by
    simp [firstExpired, Table.set, hex]
  refine ⟨⟨Table.empty.set k ⟨v, expiration now0 1, p⟩, false, [line]⟩,
    ⟨(Table.empty.set k ⟨v, expiration now0 1, p⟩).delete k, true, [line]⟩, ?_, ?_, ?_, rfl, ?_,
    ?_, ?_⟩
  · rw [setHandler_free c true now0 ⟨k, v, 1, p⟩ State.init rfl]
    simp [State.init, hlog]
  · exact hload.symm
  · rw [janitorTick_free c true now [k] _ rfl, hfirst]
  · simp [Table.delete]
  · rw [hload]; simp [Table.set]
  · intro hc
    have := congrFun hc k
    rw [hload] at this
    simp [Table.set, Table.delete] at this

/-- The scenario on `frameCodec`: Set of `a` with TTL 1 at instant 0, tick at
instant `2 * 10^9`. -/
theorem janitorTick_breaks_consistency_witness :
    ∃ s0 s1, setHandler (frameCodec Nat) true 0 (some ⟨"a", some 1, 1, 0⟩) State.init
        = .done s0 .ok ∧
      Consistent (frameCodec Nat) s0 ∧
      janitorTick (frameCodec Nat) true 2000000000 ["a"] s0 = .blocked s1 ∧
      s1.transactionLog = [(65, some ⟨"set", "a", ⟨some 1, expiration 0 1, 0⟩⟩)] ∧
      s1.db "a" = none ∧
      loadFromLog (frameCodec Nat) s1.transactionLog Table.empty "a"
        = some ⟨some 1, expiration 0 1, 0⟩ ∧
      ¬ Consistent (frameCodec Nat) s1 :=
  janitorTick_breaks_consistency (frameCodec Nat) "a" (some 1) 0 0 2000000000
    (65, some ⟨"set", "a", ⟨some 1, expiration 0 1, 0⟩⟩) (by decide) rfl (by decide)
    (by decide) (by decide) (by decide)

theorem loadFromLog_cons_short {V L : Type} (c : Codec V L) (l : L) (file : List L)
    (db : Table V) (h : c.size l < maxScanTokenSize) :
    loadFromLog c (l :: file) db = loadFromLog c file (loadLine c db l) := by
  simp [loadFromLog, scanLines, List.takeWhile, h]

theorem loadFromLog_cons_long {V L : Type} (c : Codec V L) (l : L) (file : List L)
    (db : Table V) (h : maxScanTokenSize ≤ c.size l) : loadFromLog c (l :: file) db = db := by
  have : ¬ c.size l < maxScanTokenSize := by omega
  simp [loadFromLog, scanLines, List.takeWhile, this]

theorem loadFromLog_nil {V L : Type} (c : Codec V L) (db : Table V) :
    loadFromLog c [] db = db := rfl

theorem loadFromLog_append_short {V L : Type} (c : Codec V L) (file : List L) (l : L)
    (db : Table V) (hf : ∀ line ∈ file, c.size line < maxScanTokenSize)
    (h : c.size l < maxScanTokenSize) :
    loadFromLog c (file ++ [l]) db = loadLine c (loadFromLog c file db) l := by
  induction file generalizing db with
  | nil => rw [List.nil_append, loadFromLog_cons_short c l [] db h]; rfl
  | cons x xs ih =>
    have hx : c.size x < maxScanTokenSize := hf x (List.mem_cons_self x xs)
    rw [List.cons_append, loadFromLog_cons_short c x _ db hx, loadFromLog_cons_short c x _ db hx]
    exact ih _ (fun line hl => hf line (List.mem_cons_of_mem x hl))

/-- Lines that fit the scanner buffer and fail to parse are skipped: when every line
is shorter than the buffer, `loadFromLog` is the fold over the parseable lines; and
on any log, a corrupt last line leaves the replay of the lines before it. -/
theorem loadFromLog_skips_corrupt_lines {V L : Type} (c : Codec V L) (file : List L)
    (db : Table V) :
    ((∀ line ∈ file, c.size line < maxScanTokenSize) →
      loadFromLog c file db = replayParseable c file db) ∧
    ∀ bad, c.unmarshal bad = none → loadFromLog c (file ++ [bad]) db = loadFromLog c file db := by
  constructor
  · intro hf
    rw [loadFromLog_eq_foldl, records, scanLines_of_all_lt c.size file hf]
    rfl
  · intro bad hb
    induction file generalizing db with
    | nil =>
      rw [List.nil_append, loadFromLog_nil]
      by_cases h : c.size bad < maxScanTokenSize
      · rw [loadFromLog_cons_short c bad [] db h, loadFromLog_nil]
        simp [loadLine, hb]
      · exact loadFromLog_cons_long c bad [] db (by omega)
    | cons x xs ih =>
      rw [List.cons_append]
      by_cases h : c.size x < maxScanTokenSize
      · rw [loadFromLog_cons_short c x _ db h, loadFromLog_cons_short c x _ db h]
        exact ih _
      · rw [loadFromLog_cons_long c x _ db (by omega), loadFromLog_cons_long c x _ db (by omega)]

/-- C8: a corrupt line that does not fit the scanner buffer ends recovery. For a log
of a set record, a corrupt line of 64 KiB or more and a second set record of another
key, `loadFromLog` applies the first record only: the corrupt line is not skipped, the
record after it is not applied, and the table differs from the fold over the parseable
lines, which holds the entry of the second record. -/
theorem loadFromLog_stops_at_long_line {V L : Type} (c : Codec V L) (good1 bad good2 : L)
    (tx1 tx2 : Transaction V) (h1 : c.unmarshal good1 = some tx1)
    (hs1 : c.size good1 < maxScanTokenSize) (hb : c.unmarshal bad = none)
    (hl : maxScanTokenSize ≤ c.size bad) (h2 : c.unmarshal good2 = some tx2)
    (ha : tx2.Action = "set") (hk : tx1.Key ≠ tx2.Key) :
    loadFromLog c [good1, bad, good2] Table.empty = applyTransaction Table.empty tx1 ∧
    loadFromLog c [good1, bad, good2] Table.empty tx2.Key = none ∧
    replayParseable c [good1, bad, good2] Table.empty tx2.Key = some tx2.Item ∧
    loadFromLog c [good1, bad, good2] Table.empty ≠
      replayParseable c [good1, bad, good2] Table.empty := by
  have e1 : loadFromLog c [good1, bad, good2] Table.empty
      = applyTransaction (Table.empty : Table V) tx1 := by
    rw [loadFromLog_cons_short c good1 _ _ hs1, loadFromLog_cons_long c bad _ _ hl]
    simp [loadLine, h1]
  have e2 : loadFromLog c [good1, bad, good2] Table.empty tx2.Key = none := by
    rw [e1]
    have hk2 : ¬ tx2.Key = tx1.Key := fun e => hk e.symm
    unfold applyTransaction Table.set Table.delete Table.empty
    split_ifs <;> simp_all
  have e3 : replayParseable c [good1, bad, good2] Table.empty tx2.Key = some tx2.Item := by
    simp [replayParseable, List.filterMap, h1, h2, hb, applyTransaction, ha, Table.set]
  refine ⟨e1, e2, e3, fun hc => ?_⟩
  have := congrFun hc tx2.Key
  rw [e2, e3] at this
  simp at this

/-- A log on `frameCodec` whose second line is corrupt and exactly 64 KiB long. -/
theorem loadFromLog_stops_at_long_line_witness :
    maxScanTokenSize ≤ (frameCodec Nat).size (65536, none) ∧
    loadFromLog (frameCodec Nat)
      [(65, some ⟨"set", "a", ⟨some 1, 0, 0⟩⟩), (65536, none),
        (65, some ⟨"set", "b", ⟨some 2, 0, 0⟩⟩)] Table.empty "b" = none ∧
    replayParseable (frameCodec Nat)
      [(65, some ⟨"set", "a", ⟨some 1, 0, 0⟩⟩), (65536, none),
        (65, some ⟨"set", "b", ⟨some 2, 0, 0⟩⟩)] Table.empty "b" = some ⟨some 2, 0, 0⟩ :=
  have h := loadFromLog_stops_at_long_line (frameCodec Nat)
    (65, some ⟨"set", "a", ⟨some 1, 0, 0⟩⟩) (65536, none) (65, some ⟨"set", "b", ⟨some 2, 0, 0⟩⟩)
    ⟨"set", "a", ⟨some 1, 0, 0⟩⟩ ⟨"set", "b", ⟨some 2, 0, 0⟩⟩ rfl (by decide) rfl (by decide)
    rfl rfl (by decide)
  ⟨by decide, h.2.1, h.2.2.1⟩

/-! ## What the handlers keep -/

/-- Set and Delete on a free lock keep the table the replay of the log, when the
record written round-trips through the codec and every line fits the scanner buffer. -/
theorem handlers_keep_consistent {V L : Type} (c : Codec V L) (s : State V L)
    (tx : Transaction V) (line : L) (hmu : s.mu = false) (hc : Consistent c s)
    (hf : ∀ l ∈ s.transactionLog, c.size l < maxScanTokenSize)
    (hm : c.marshal tx = some line) (hu : c.unmarshal line = some tx)
    (hs : c.size line < maxScanTokenSize) :
    (∀ now data, tx = ⟨"set", data.Key, ⟨data.Value, expiration now data.TTL, data.Priority⟩⟩ →
      ∃ s1, setHandler c true now (some data) s = .done s1 .ok ∧ Consistent c s1) ∧
    (∀ key, key ≠ "" → tx = ⟨"delete", key, Item.zero⟩ →
      ∃ s1, deleteHandler c true key s = .done s1 .noContent ∧ Consistent c s1) := by
  have hload : loadFromLog c (s.transactionLog ++ [line]) Table.empty
      = applyTransaction s.db tx := by
    rw [loadFromLog_append_short c _ line _ hf hs, ← hc]
    simp [loadLine, hu]
  constructor
  · intro now data htx
    refine ⟨_, setHandler_free c true now data s hmu, ?_⟩
    subst htx
    simp only [Consistent, logAfter, hm, if_true, hload]
    simp [applyTransaction]
  · intro key hkey htx
    refine ⟨_, deleteHandler_free c true key s hmu hkey, ?_⟩
    subst htx
    simp only [Consistent, logAfter, hm, if_true, hload]
    simp [applyTransaction]

/-- Outside `setHandler` with an empty key, nothing puts the empty key in the table:
Get, Delete, a Set of a non-empty key and a Janitor tick keep a table without it. -/
theorem keysNonEmpty_kept {V L : Type} (c : Codec V L) (w : Bool) (now : Int) (s : State V L)
    (hmu : s.mu = false) (h : KeysNonEmpty s.db) :
    (∀ key, key ≠ "" → ∃ r, getHandler key s = .done s r) ∧
    (∀ key, key ≠ "" → ∃ s1, deleteHandler c w key s = .done s1 .noContent ∧
      KeysNonEmpty s1.db) ∧
    (∀ data : SetData V, data.Key ≠ "" → ∃ s1, setHandler c w now (some data) s = .done s1 .ok ∧
      KeysNonEmpty s1.db) ∧
    (∀ order, ∃ s1, (janitorTick c w now order s = .done s1 () ∨
      janitorTick c w now order s = .blocked s1) ∧ KeysNonEmpty s1.db) := by
  unfold KeysNonEmpty at *
  refine ⟨fun key hk => ⟨_, getHandler_free key s hmu hk⟩, fun key hk => ?_, fun data hk => ?_,
    fun order => ?_⟩
  · refine ⟨_, deleteHandler_free c w key s hmu hk, ?_⟩
    simp [Table.delete, h]
  · refine ⟨_, setHandler_free c w now data s hmu, ?_⟩
    have : ¬ "" = data.Key := fun e => hk e.symm
    simp [Table.set, h, this]
  · rw [janitorTick_free c w now order s hmu]
    cases firstExpired now s.db order with
    | none => exact ⟨s, Or.inl rfl, h⟩
    | some k => exact ⟨_, Or.inr rfl, by simp [Table.delete, h]⟩

/-! ## Delete of an absent key -/

theorem loadFromLog_append_cases {V L : Type} (c : Codec V L) (file : List L) (l : L)
    (db : Table V) :
    loadFromLog c (file ++ [l]) db = loadFromLog c file db ∨
    loadFromLog c (file ++ [l]) db = loadLine c (loadFromLog c file db) l := by
  induction file generalizing db with
  | nil =>
    rw [List.nil_append, loadFromLog_nil]
    by_cases h : c.size l < maxScanTokenSize
    · right; rw [loadFromLog_cons_short c l [] db h, loadFromLog_nil]
    · left; exact loadFromLog_cons_long c l [] db (by omega)
  | cons x xs ih =>
    rw [List.cons_append]
    by_cases h : c.size x < maxScanTokenSize
    · rw [loadFromLog_cons_short c x _ db h, loadFromLog_cons_short c x _ db h]
      exact ih _
    · left
      rw [loadFromLog_cons_long c x _ db (by omega), loadFromLog_cons_long c x _ db (by omega)]

theorem Table.delete_absent {V : Type} (db : Table V) (k : String) (h : db k = none) :
    db.delete k = db := by
  funext k1
  unfold Table.delete
  split_ifs with e
  · rw [e, h]
  · rfl

/-- Delete of an absent key whose record is read back as written. On every state with
the lock free and for every non-empty key `k` that the table does not hold,
`deleteHandler` leaves the table unchanged and answers 204, whether or not the log
write succeeds; with the write succeeding it appends exactly one line; and when that
line decodes to the delete record for `k`, appending it to a log whose replay does not
hold `k` leaves the replay as it was. -/
theorem delete_absent_key {V L : Type} (c : Codec V L) (s : State V L) (k : String) (line : L)
    (hmu : s.mu = false) (hk : k ≠ "") (habs : s.db k = none)
    (hm : c.marshal ⟨"delete", k, Item.zero⟩ = some line)
    (hu : c.unmarshal line = some ⟨"delete", k, Item.zero⟩) :
    deleteHandler c true k s = .done ⟨s.db, false, s.transactionLog ++ [line]⟩ .noContent ∧
    (∀ w, ∃ s1, deleteHandler c w k s = .done s1 .noContent ∧ s1.db = s.db) ∧
    (∀ file, loadFromLog c file Table.empty k = none →
      loadFromLog c (file ++ [line]) Table.empty = loadFromLog c file Table.empty) ∧
    (∀ txs : List (Transaction V), txs.foldl applyTransaction Table.empty k = none →
      (txs ++ [(⟨"delete", k, Item.zero⟩ : Transaction V)]).foldl applyTransaction Table.empty
        = txs.foldl applyTransaction Table.empty) := by
  have hdel : ∀ db : Table V, db k = none →
      applyTransaction db ⟨"delete", k, Item.zero⟩ = db := by
    intro db h
    simp [applyTransaction, Table.delete_absent db k h]
  refine ⟨?_, fun w => ?_, fun file hf => ?_, fun txs ht => ?_⟩
  · rw [deleteHandler_free c true k s hmu hk, Table.delete_absent s.db k habs]
    simp [logAfter, hm]
  · refine ⟨_, deleteHandler_free c w k s hmu hk, ?_⟩
    exact Table.delete_absent s.db k habs
  · rcases loadFromLog_append_cases c file line Table.empty with h | h
    · exact h
    · rw [h]
      simp only [loadLine, hu]
      exact hdel _ hf
  · rw [List.foldl_append]
    exact hdel _ ht

/-- Delete of `a` on the startup state, whose table and log are empty. -/
theorem delete_absent_key_witness :
    deleteHandler (frameCodec Nat) true "a" State.init
      = .done ⟨Table.empty, false, [(65, some ⟨"delete", "a", Item.zero⟩)]⟩ .noContent ∧
    loadFromLog (frameCodec Nat) ([] ++ [(65, some ⟨"delete", "a", Item.zero⟩)]) Table.empty
      = loadFromLog (frameCodec Nat) [] Table.empty :=
  have h := delete_absent_key (frameCodec Nat) State.init "a"
    (65, some ⟨"delete", "a", Item.zero⟩) rfl (by decide) rfl (by decide) rfl
  ⟨h.1, h.2.2.1 [] rfl⟩

/-- C11: Delete of an absent key whose bytes are not valid UTF-8. A Set of the key
U+FFFD (bytes `EF BF BD`) on the startup state gives a table that is the replay of its
log. The key of the single byte `FF` is not empty and is in neither the table nor the
replay. Its Delete answers 204 and leaves the table unchanged, but the line it appends
decodes to the delete record of U+FFFD: the replay of the log loses the entry of
U+FFFD, which the table still holds. -/
theorem delete_absent_key_rewrites_log :
    ∃ s0 s1 : State Nat (Nat × Option (Transaction Nat)),
      setHandler keyCodec true 0 (some ⟨"\xef\xbf\xbd", some 1, 0, 0⟩) State.init
        = .done s0 .ok ∧
      Consistent keyCodec s0 ∧
      "\xff" ≠ "" ∧ s0.db "\xff" = none ∧
      loadFromLog keyCodec s0.transactionLog Table.empty "\xff" = none ∧
      deleteHandler keyCodec true "\xff" s0 = .done s1 .noContent ∧
      s1.db = s0.db ∧
      s1.transactionLog
        = s0.transactionLog ++ [(65, some ⟨"delete", "\xef\xbf\xbd", Item.zero⟩)] ∧
      loadFromLog keyCodec s0.transactionLog Table.empty "\xef\xbf\xbd"
        = some ⟨some 1, 0, 0⟩ ∧
      loadFromLog keyCodec s1.transactionLog Table.empty "\xef\xbf\xbd" = none ∧
      s1.db "\xef\xbf\xbd" = some ⟨some 1, 0, 0⟩ ∧
      ¬ Consistent keyCodec s1 := by
  have e0 : expiration 0 0 = 0 := by decide
  have hk1 : loggedKey "\xef\xbf\xbd" = "\xef\xbf\xbd" := by decide
  have hk2 : loggedKey "\xff" = "\xef\xbf\xbd" := by decide
  have hl1 : "\xef\xbf\xbd".length + 64 = 67 := by decide
  have hl2 : "\xff".length + 64 = 65 := by decide
  have hne : ("\xff" : String) ≠ "" := by decide
  have hne2 : ¬ ("\xff" : String) = "\xef\xbf\xbd" := by decide
  have hload0 : loadFromLog keyCodec
      [(67, some ⟨"set", "\xef\xbf\xbd", ⟨some 1, 0, 0⟩⟩)] Table.empty
      = (Table.empty.set "\xef\xbf\xbd" ⟨some 1, 0, 0⟩ : Table Nat) := by
    rw [loadFromLog_singleton keyCodec (67, some ⟨"set", "\xef\xbf\xbd", ⟨some 1, 0, 0⟩⟩)
      ⟨"set", "\xef\xbf\xbd", ⟨some 1, 0, 0⟩⟩ _ rfl (by decide)]
    simp [applyTransaction]
  have hload1 : loadFromLog keyCodec
      [(67, some ⟨"set", "\xef\xbf\xbd", ⟨some 1, 0, 0⟩⟩),
        (65, some ⟨"delete", "\xef\xbf\xbd", Item.zero⟩)] Table.empty "\xef\xbf\xbd"
      = none := by
    simp [loadFromLog, scanLines, maxScanTokenSize, keyCodec, loadLine, applyTransaction,
      Table.set, Table.delete]
  refine ⟨⟨Table.empty.set "\xef\xbf\xbd" ⟨some 1, 0, 0⟩, false,
      [(67, some ⟨"set", "\xef\xbf\xbd", ⟨some 1, 0, 0⟩⟩)]⟩,
    ⟨Table.empty.set "\xef\xbf\xbd" ⟨some 1, 0, 0⟩, false,
      [(67, some ⟨"set", "\xef\xbf\xbd", ⟨some 1, 0, 0⟩⟩),
        (65, some ⟨"delete", "\xef\xbf\xbd", Item.zero⟩)]⟩,
    ?_, hload0.symm, hne, ?_, ?_, ?_, rfl, rfl, ?_, hload1, ?_, ?_⟩
  · rw [setHandler_free keyCodec true 0 ⟨"\xef\xbf\xbd", some 1, 0, 0⟩ State.init rfl]
    simp [logAfter, keyCodec, e0, hk1, hl1, State.init]
  · simp [Table.set, Table.empty, hne2]
  · rw [hload0]; simp [Table.set, Table.empty, hne2]
  · rw [deleteHandler_free keyCodec true "\xff" _ rfl hne]
    have hd : (Table.empty.set "\xef\xbf\xbd" ⟨some 1, 0, 0⟩ : Table Nat).delete "\xff"
        = Table.empty.set "\xef\xbf\xbd" ⟨some 1, 0, 0⟩ :=
      Table.delete_absent _ _ (by simp [Table.set, Table.empty, hne2])
    simp [logAfter, keyCodec, hk2, hl2, hd]
  · rw [hload0]; simp [Table.set]
  · simp [Table.set]
  · intro hc
    have h := congrFun hc "\xef\xbf\xbd"
    simp only [] at h
    rw [hload1] at h
    simp [Table.set] at h

/-! ## Mutation and append -/

theorem setHandler_eq_sections {V L : Type} (c : Codec V L) (w : Bool) (now : Int)
    (data : SetData V) (s : State V L) :
    setHandler c w now (some data) s =
      match setHandlerMutate now data s with
      | .blocked s1 => .blocked s1
      | .done s1 tx =>
        match writeTransaction c w tx s1 with
        | .done s2 _ => .done s2 .ok
        | .blocked s2 => .blocked s2 := by
  unfold setHandler setHandlerMutate
  cases h : s.mu <;> simp

theorem deleteHandler_eq_sections {V L : Type} (c : Codec V L) (w : Bool) (key : String)
    (s : State V L) (hk : key ≠ "") :
    deleteHandler c w key s =
      match deleteHandlerMutate key s with
      | .blocked s1 => .blocked s1
      | .done s1 tx =>
        match writeTransaction c w tx s1 with
        | .done s2 _ => .done s2 .noContent
        | .blocked s2 => .blocked s2 := by
  unfold deleteHandler deleteHandlerMutate
  cases h : s.mu <;> simp [hk]

/-- Set and Delete run alone on a free lock: the table is mutated and `mu` is free
again with the log not yet written; `writeTransaction` then appends the record, and
the handler ends with its record as the last line of the log. -/
theorem mutation_then_append_sections {V L : Type} (c : Codec V L) (now : Int)
    (s : State V L) (hmu : s.mu = false) :
    (∀ (data : SetData V) (line : L),
      c.marshal ⟨"set", data.Key, ⟨data.Value, expiration now data.TTL, data.Priority⟩⟩
        = some line →
      ∃ s1 tx, setHandlerMutate now data s = .done s1 tx ∧
        s1.db = s.db.set data.Key tx.Item ∧ s1.mu = false ∧
        s1.transactionLog = s.transactionLog ∧
        writeTransaction c true tx s1 = .done ⟨s1.db, false, s.transactionLog ++ [line]⟩ () ∧
        setHandler c true now (some data) s
          = .done ⟨s1.db, false, s.transactionLog ++ [line]⟩ .ok) ∧
    (∀ (key : String) (line : L), key ≠ "" →
      c.marshal ⟨"delete", key, Item.zero⟩ = some line →
      ∃ s1 tx, deleteHandlerMutate key s = .done s1 tx ∧
        s1.db = s.db.delete key ∧ s1.mu = false ∧
        s1.transactionLog = s.transactionLog ∧
        writeTransaction c true tx s1 = .done ⟨s1.db, false, s.transactionLog ++ [line]⟩ () ∧
        deleteHandler c true key s
          = .done ⟨s1.db, false, s.transactionLog ++ [line]⟩ .noContent) := by
  constructor
  · intro data line hm
    refine ⟨⟨s.db.set data.Key ⟨data.Value, expiration now data.TTL, data.Priority⟩, false,
      s.transactionLog⟩,
      ⟨"set", data.Key, ⟨data.Value, expiration now data.TTL, data.Priority⟩⟩, ?_, rfl, rfl, rfl,
      ?_, ?_⟩
    · cases s
      simp at hmu
      simp [setHandlerMutate, hmu]
    · rw [writeTransaction_free c true _ _ rfl]
      simp [logAfter, hm]
    · rw [setHandler_free c true now data s hmu]
      simp [logAfter, hm]
  · intro key line hk hm
    refine ⟨⟨s.db.delete key, false, s.transactionLog⟩, ⟨"delete", key, Item.zero⟩, ?_, rfl, rfl,
      rfl, ?_, ?_⟩
    · cases s
      simp at hmu
      simp [deleteHandlerMutate, hmu]
    · rw [writeTransaction_free c true _ _ rfl]
      simp [logAfter, hm]
    · rw [deleteHandler_free c true key s hmu hk]
      simp [logAfter, hm]

/-- Set of `a` and Delete of `a` on the startup state, run alone. -/
theorem mutation_then_append_sections_witness :
    (State.init : State Nat (Nat × Option (Transaction Nat))).mu = false ∧
    (∃ s1 tx, setHandlerMutate 0 ⟨"a", some 1, 0, 0⟩
        (State.init : State Nat (Nat × Option (Transaction Nat))) = .done s1 tx ∧
      s1.db = Table.empty.set "a" tx.Item ∧ s1.mu = false ∧
      s1.transactionLog = [] ∧
      writeTransaction (frameCodec Nat) true tx s1
        = .done ⟨s1.db, false, [] ++ [(65, some ⟨"set", "a", ⟨some 1, 0, 0⟩⟩)]⟩ () ∧
      setHandler (frameCodec Nat) true 0 (some ⟨"a", some 1, 0, 0⟩) State.init
        = .done ⟨s1.db, false, [] ++ [(65, some ⟨"set", "a", ⟨some 1, 0, 0⟩⟩)]⟩ .ok) :=
  ⟨rfl, (mutation_then_append_sections (frameCodec Nat) 0 State.init rfl).1
    ⟨"a", some 1, 0, 0⟩ (65, some ⟨"set", "a", ⟨some 1, 0, 0⟩⟩) (by decide)⟩

/-- A critical section entered while `mu` is held does not proceed: the two sections
of the handlers, `writeTransaction` and the handlers themselves wait on `mu`. -/
theorem sections_block_on_held_lock {V L : Type} (c : Codec V L) (w : Bool) (now : Int)
    (s : State V L) (hmu : s.mu = true) :
    (∀ data : SetData V, setHandlerMutate now data s = .blocked s) ∧
    (∀ key, deleteHandlerMutate key s = (.blocked s : Outcome (State V L) (Transaction V))) ∧
    (∀ tx, writeTransaction c w tx s = .blocked s) ∧
    (∀ data : SetData V, setHandler c w now (some data) s = .blocked s) ∧
    (∀ key, key ≠ "" → deleteHandler c w key s = .blocked s) ∧
    (∀ key, key ≠ "" → getHandler key s = .blocked s) := by
  refine ⟨fun data => ?_, fun key => ?_, fun tx => ?_, fun data => ?_, fun key hk => ?_,
    fun key hk => ?_⟩
  · simp [setHandlerMutate, hmu]
  · simp [deleteHandlerMutate, hmu]
  · simp [writeTransaction, hmu]
  · simp [setHandler, hmu]
  · simp [deleteHandler, hmu, hk]
  · simp [getHandler, hmu, hk]

/-- C12: the lock is released between the mutation and the append. From the startup
state, a first Set of `a` to 1 runs up to its `mu.Unlock()` and leaves `mu` free; a
second Set of `a` to 2, which would wait if `mu` were still held, then runs whole; the
first Set then appends its record. The table holds the value 2 of the second
mutation, the log holds the record of the second Set before the record of the first,
and replaying the log gives the value 1: the table is not the replay of the log. -/
theorem log_order_differs_from_mutation_order :
    ∃ (sA : State Nat (Nat × Option (Transaction Nat))) (txA : Transaction Nat)
      (sB sF : State Nat (Nat × Option (Transaction Nat))),
      setHandlerMutate 0 ⟨"a", some 1, 0, 0⟩ State.init = .done sA txA ∧
      sA.mu = false ∧
      setHandler (frameCodec Nat) true 0 (some ⟨"a", some 2, 0, 0⟩)
        ⟨sA.db, true, sA.transactionLog⟩ = .blocked ⟨sA.db, true, sA.transactionLog⟩ ∧
      setHandler (frameCodec Nat) true 0 (some ⟨"a", some 2, 0, 0⟩) sA = .done sB .ok ∧
      writeTransaction (frameCodec Nat) true txA sB = .done sF () ∧
      sF.db "a" = some ⟨some 2, 0, 0⟩ ∧
      sF.transactionLog = [(65, some ⟨"set", "a", ⟨some 2, 0, 0⟩⟩),
        (65, some ⟨"set", "a", ⟨some 1, 0, 0⟩⟩)] ∧
      loadFromLog (frameCodec Nat) sF.transactionLog Table.empty "a" = some ⟨some 1, 0, 0⟩ ∧
      sF.db ≠ loadFromLog (frameCodec Nat) sF.transactionLog Table.empty := by
  have e0 : expiration 0 0 = 0 := by decide
  have hlen : "a".length + 64 = 65 := by decide
  have hload : loadFromLog (frameCodec Nat)
      [(65, some ⟨"set", "a", ⟨some 2, 0, 0⟩⟩), (65, some ⟨"set", "a", ⟨some 1, 0, 0⟩⟩)]
      Table.empty "a" = some ⟨some 1, 0, 0⟩ := by
    simp [loadFromLog, scanLines, maxScanTokenSize, frameCodec, loadLine, applyTransaction,
      Table.set]
  refine ⟨⟨Table.empty.set "a" ⟨some 1, 0, 0⟩, false, []⟩, ⟨"set", "a", ⟨some 1, 0, 0⟩⟩,
    ⟨(Table.empty.set "a" ⟨some 1, 0, 0⟩).set "a" ⟨some 2, 0, 0⟩, false,
      [(65, some ⟨"set", "a", ⟨some 2, 0, 0⟩⟩)]⟩,
    ⟨(Table.empty.set "a" ⟨some 1, 0, 0⟩).set "a" ⟨some 2, 0, 0⟩, false,
      [(65, some ⟨"set", "a", ⟨some 2, 0, 0⟩⟩), (65, some ⟨"set", "a", ⟨some 1, 0, 0⟩⟩)]⟩,
    ?_, rfl, ?_, ?_, ?_, ?_, rfl, hload, ?_⟩
  · simp [setHandlerMutate, State.init, e0]
  · simp [setHandler]
  · rw [setHandler_free (frameCodec Nat) true 0 ⟨"a", some 2, 0, 0⟩ _ rfl]
    simp [logAfter, frameCodec, e0, hlen]
  · rw [writeTransaction_free (frameCodec Nat) true _ _ rfl]
    simp [logAfter, frameCodec, hlen]
  · simp [Table.set]
  · intro hc
    have h := congrFun hc "a"
    rw [hload] at h
    simp [Table.set] at h

/-! ## Append failure -/

/-- C13: append failure does not roll back. On every state with the lock free, a Set
or a Delete whose write to the log fails, or whose record fails to marshal, returns
normally with its success response; the table holds the new entry, or lacks the
deleted key, and the log is as it was before the operation. -/
theorem append_failure_keeps_mutation {V L : Type} (c : Codec V L) (w : Bool) (now : Int)
    (s : State V L) (hmu : s.mu = false) :
    (∀ data : SetData V,
      w = false ∨
        c.marshal ⟨"set", data.Key, ⟨data.Value, expiration now data.TTL, data.Priority⟩⟩
          = none →
      ∃ s1, setHandler c w now (some data) s = .done s1 .ok ∧
        s1.db data.Key = some ⟨data.Value, expiration now data.TTL, data.Priority⟩ ∧
        s1.db = s.db.set data.Key ⟨data.Value, expiration now data.TTL, data.Priority⟩ ∧
        s1.transactionLog = s.transactionLog ∧ s1.mu = false) ∧
    (∀ key : String, key ≠ "" →
      w = false ∨ c.marshal ⟨"delete", key, Item.zero⟩ = none →
      ∃ s1, deleteHandler c w key s = .done s1 .noContent ∧
        s1.db key = none ∧ s1.db = s.db.delete key ∧
        s1.transactionLog = s.transactionLog ∧ s1.mu = false) := by
  have hlog : ∀ tx : Transaction V, w = false ∨ c.marshal tx = none →
      logAfter c w tx s.transactionLog = s.transactionLog := by
    intro tx h
    unfold logAfter
    rcases h with h | h
    · subst h
      cases c.marshal tx <;> simp
    · rw [h]
  constructor
  · intro data h
    refine ⟨_, setHandler_free c w now data s hmu, ?_, rfl, hlog _ h, rfl⟩
    simp [Table.set]
  · intro key hk h
    refine ⟨_, deleteHandler_free c w key s hmu hk, ?_, rfl, hlog _ h, rfl⟩
    simp [Table.delete]

/-- A Set of `a` on the startup state whose write to the log fails. -/
theorem append_failure_keeps_mutation_witness :
    (State.init : State Nat (Nat × Option (Transaction Nat))).mu = false ∧
    ∃ s1, setHandler (frameCodec Nat) false 0 (some ⟨"a", some 1, 0, 0⟩) State.init
        = .done s1 .ok ∧
      s1.db "a" = some ⟨some 1, expiration 0 0, 0⟩ ∧
      s1.db = Table.empty.set "a" ⟨some 1, expiration 0 0, 0⟩ ∧
      s1.transactionLog = [] ∧ s1.mu = false :=
  ⟨rfl, (append_failure_keeps_mutation (frameCodec Nat) false 0 State.init rfl).1
    ⟨"a", some 1, 0, 0⟩ (Or.inl rfl)⟩

/-! ## Replay depends on the records only -/

theorem lastWinsOver_append_singleton {V : Type} (db : Table V) (txs : List (Transaction V))
    (tx : Transaction V) (k : String) :
    lastWinsOver db (txs ++ [tx]) k = applyTransaction (lastWinsOver db txs) tx k := by
  unfold lastWinsOver lastRecord applyTransaction Table.set Table.delete
  rw [List.reverse_append, List.reverse_singleton, List.singleton_append, List.find?_cons]
  by_cases hs : tx.Action = "set"
  · by_cases hk : tx.Key = k
    · simp [hs, hk]
    · have hk2 : ¬ k = tx.Key := fun e => hk e.symm
      simp [hs, hk, hk2]
  · by_cases hd : tx.Action = "delete"
    · by_cases hk : tx.Key = k
      · simp [hd, hk]
      · have hk2 : ¬ k = tx.Key := fun e => hk e.symm
        simp [hd, hk, hk2]
    · simp [hs, hd]

theorem foldl_applyTransaction_from {V : Type} (db : Table V) (txs : List (Transaction V))
    (k : String) : txs.foldl applyTransaction db k = lastWinsOver db txs k := by
  induction txs using List.reverseRecOn generalizing k with
  | nil => rfl
  | append_singleton txs tx ih =>
    rw [List.foldl_append, lastWinsOver_append_singleton]
    have : txs.foldl applyTransaction db = lastWinsOver db txs := funext ih
    simp [this]

/-- C14: replay is deterministic. The table that `loadFromLog` builds from the empty
table is a function of the sequence of records read and of nothing else: two replays
that read the same records, of the same log or of two logs that differ in their
lines, give the same table. -/
theorem replay_deterministic {V L1 L2 : Type} (c1 : Codec V L1) (c2 : Codec V L2)
    (file1 : List L1) (file2 : List L2) (h : records c1 file1 = records c2 file2) :
    loadFromLog c1 file1 Table.empty = loadFromLog c2 file2 Table.empty ∧
    ∀ k, loadFromLog c1 file1 Table.empty k = lastWins (records c2 file2) k := by
  refine ⟨?_, fun k => ?_⟩
  · rw [loadFromLog_eq_foldl, loadFromLog_eq_foldl, h]
  · rw [loadFromLog_eq_foldl, h, foldl_applyTransaction_empty]

/-- Two logs with the same records, one of them with a corrupt line. -/
theorem replay_deterministic_witness :
    records (frameCodec Nat) crashLog = records (frameCodec Nat) crashLogCorrupt ∧
    loadFromLog (frameCodec Nat) crashLog Table.empty
      = loadFromLog (frameCodec Nat) crashLogCorrupt Table.empty :=
  have h : records (frameCodec Nat) crashLog = records (frameCodec Nat) crashLogCorrupt := by
    simp [records, scanLines, frameCodec, crashLog, crashLogCorrupt, maxScanTokenSize]
  ⟨h, (replay_deterministic (frameCodec Nat) (frameCodec Nat) crashLog crashLogCorrupt h).1⟩

/-! ## Long lines -/

/-- C15: recovery drops the records from a long line on. From the startup state, a
Set whose record marshals to a line of 64 KiB or more and then a Set of another key
both succeed, and the log holds the two lines in append order; `loadFromLog` on that
log applies neither record: the table it builds is empty, while applying every record
in append order gives the entry of the second Set. -/
theorem recovery_drops_records_after_long_line {V L : Type} (c : Codec V L) (now1 now2 : Int)
    (d1 d2 : SetData V) (l1 l2 : L)
    (hm1 : c.marshal ⟨"set", d1.Key, ⟨d1.Value, expiration now1 d1.TTL, d1.Priority⟩⟩ = some l1)
    (hm2 : c.marshal ⟨"set", d2.Key, ⟨d2.Value, expiration now2 d2.TTL, d2.Priority⟩⟩ = some l2)
    (hu1 : c.unmarshal l1 = some ⟨"set", d1.Key, ⟨d1.Value, expiration now1 d1.TTL, d1.Priority⟩⟩)
    (hu2 : c.unmarshal l2 = some ⟨"set", d2.Key, ⟨d2.Value, expiration now2 d2.TTL, d2.Priority⟩⟩)
    (hlong : maxScanTokenSize ≤ c.size l1) :
    ∃ s1 s2, setHandler c true now1 (some d1) State.init = .done s1 .ok ∧
      setHandler c true now2 (some d2) s1 = .done s2 .ok ∧
      s2.transactionLog = [l1, l2] ∧
      s2.db d2.Key = some ⟨d2.Value, expiration now2 d2.TTL, d2.Priority⟩ ∧
      loadFromLog c s2.transactionLog Table.empty = Table.empty ∧
      replayParseable c s2.transactionLog Table.empty d2.Key
        = some ⟨d2.Value, expiration now2 d2.TTL, d2.Priority⟩ ∧
      ¬ Consistent c s2 := by
  have hload : loadFromLog c [l1, l2] Table.empty = (Table.empty : Table V) :=
    loadFromLog_cons_long c l1 [l2] Table.empty hlong
  refine ⟨_, _, setHandler_free c true now1 d1 State.init rfl,
    setHandler_free c true now2 d2 _ rfl, ?_, ?_, ?_, ?_, ?_⟩
  · simp [logAfter, hm1, hm2, State.init]
  · simp [Table.set]
  · simp only [logAfter, hm1, hm2, State.init, if_true, List.nil_append, List.cons_append]
    exact hload
  · simp [logAfter, hm1, hm2, State.init, replayParseable, List.filterMap, hu1, hu2,
      applyTransaction, Table.set]
  · intro hc
    have h := congrFun hc d2.Key
    simp only [logAfter, hm1, hm2, State.init, if_true, List.nil_append, List.cons_append,
      hload] at h
    simp [Table.set, Table.empty] at h

/-- A Set of `a` with a payload of 70000 bytes, then a Set of `b`, on `payloadCodec`. -/
theorem recovery_drops_records_after_long_line_witness :
    maxScanTokenSize ≤ payloadCodec.size (70065, some ⟨"set", "a", ⟨some 70000, 0, 0⟩⟩) ∧
    ∃ s1 s2, setHandler payloadCodec true 0 (some ⟨"a", some 70000, 0, 0⟩) State.init
        = .done s1 .ok ∧
      setHandler payloadCodec true 0 (some ⟨"b", some 1, 0, 0⟩) s1 = .done s2 .ok ∧
      s2.transactionLog = [(70065, some ⟨"set", "a", ⟨some 70000, 0, 0⟩⟩),
        (66, some ⟨"set", "b", ⟨some 1, 0, 0⟩⟩)] ∧
      s2.db "b" = some ⟨some 1, expiration 0 0, 0⟩ ∧
      loadFromLog payloadCodec s2.transactionLog Table.empty = Table.empty ∧
      replayParseable payloadCodec s2.transactionLog Table.empty "b"
        = some ⟨some 1, expiration 0 0, 0⟩ ∧
      ¬ Consistent payloadCodec s2 :=
  ⟨by decide, recovery_drops_records_after_long_line payloadCodec 0 0
    ⟨"a", some 70000, 0, 0⟩ ⟨"b", some 1, 0, 0⟩
    (70065, some ⟨"set", "a", ⟨some 70000, 0, 0⟩⟩) (66, some ⟨"set", "b", ⟨some 1, 0, 0⟩⟩)
    (by decide) (by decide) (by decide) (by decide) (by decide)⟩

/-! ## Re-applying a log -/

theorem lastWinsOver_idem {V : Type} (db : Table V) (txs : List (Transaction V)) (k : String) :
    lastWinsOver (lastWinsOver db txs) txs k = lastWinsOver db txs k := by
  unfold lastWinsOver
  cases lastRecord txs k <;> rfl

/-- C16: re-applying a log is a no-op. For every log, running `loadFromLog` on it
again, into the table that `loadFromLog` built from the empty table, gives that same
table; the same holds from any starting table and for any sequence of records. -/
theorem loadFromLog_twice {V L : Type} (c : Codec V L) (file : List L) :
    loadFromLog c file (loadFromLog c file Table.empty) = loadFromLog c file Table.empty ∧
    (∀ db, loadFromLog c file (loadFromLog c file db) = loadFromLog c file db) ∧
    (∀ (txs : List (Transaction V)) db,
      txs.foldl applyTransaction (txs.foldl applyTransaction db)
        = txs.foldl applyTransaction db) := by
  have key : ∀ (txs : List (Transaction V)) db,
      txs.foldl applyTransaction (txs.foldl applyTransaction db)
        = txs.foldl applyTransaction db := by
    intro txs db
    funext k
    have h1 : txs.foldl applyTransaction db = lastWinsOver db txs :=
      funext (foldl_applyTransaction_from db txs)
    rw [foldl_applyTransaction_from, h1, lastWinsOver_idem]
  have all : ∀ db, loadFromLog c file (loadFromLog c file db) = loadFromLog c file db := by
    intro db
    rw [loadFromLog_eq_foldl c file db, loadFromLog_eq_foldl]
    exact key _ db
  exact ⟨all _, all, key⟩

/-! ## Frame of the single-key operations -/

/-- C17: frame of the single-key operations. On every state with the lock free and for
all keys `k` and `k1` with `k ≠ k1`, a Set of `k` and a Delete of `k` return with the
entry of `k1` as it was, present or absent, and a Get of `k` returns with the whole
state, table and log, unchanged. -/
theorem single_key_frame {V L : Type} (c : Codec V L) (w : Bool) (now : Int) (s : State V L)
    (k k1 : String) (hmu : s.mu = false) (hne : k ≠ k1) :
    (∀ (v : Option V) (ttl p : Int), ∃ s1,
      setHandler c w now (some ⟨k, v, ttl, p⟩) s = .done s1 .ok ∧ s1.db k1 = s.db k1) ∧
    (∃ s1 r, deleteHandler c w k s = .done s1 r ∧ s1.db k1 = s.db k1) ∧
    (∃ r, getHandler k s = .done s r) := by
  have hne2 : ¬ k1 = k := fun e => hne e.symm
  refine ⟨fun v ttl p => ?_, ?_, ?_⟩
  · refine ⟨_, setHandler_free c w now ⟨k, v, ttl, p⟩ s hmu, ?_⟩
    simp [Table.set, hne2]
  · by_cases hk : k = ""
    · exact ⟨s, .badRequest, by simp [deleteHandler, hk], rfl⟩
    · refine ⟨_, _, deleteHandler_free c w k s hmu hk, ?_⟩
      simp [Table.delete, hne2]
  · by_cases hk : k = ""
    · exact ⟨.badRequest, by simp [getHandler, hk]⟩
    · exact ⟨_, getHandler_free k s hmu hk⟩

/-- Set, Delete and Get of `a` on a state that holds `b`. -/
theorem single_key_frame_witness :
    (⟨Table.empty.set "b" ⟨some 7, 0, 0⟩, false, []⟩ :
      State Nat (Nat × Option (Transaction Nat))).mu = false ∧ "a" ≠ "b" ∧
    ∃ s1, setHandler (frameCodec Nat) true 0 (some ⟨"a", some 1, 0, 0⟩)
        ⟨Table.empty.set "b" ⟨some 7, 0, 0⟩, false, []⟩ = .done s1 .ok ∧
      s1.db "b" = (Table.empty.set "b" ⟨some 7, 0, 0⟩ : Table Nat) "b" :=
  ⟨rfl, by decide,
    (single_key_frame (frameCodec Nat) true 0
      ⟨Table.empty.set "b" ⟨some 7, 0, 0⟩, false, []⟩ "a" "b" rfl (by decide)).1 (some 1) 0 0⟩

end VoidDB
